import Mathlib

/-!
Verification development for the aws-asset-inventory collection engine.

This file gives a shallow embedding, in Lean 4, of the Go package
`awsassetinventory` (collector.go, retry.go, types.go, errors.go) and proves
properties of the embedded definitions.

Modelling conventions:
* Go strings are Lean `String`; the Go named string types `Region` and
  `ResourceType` are embedded as plain `String` (they are string aliases).
* Go `*string` fields (AWS SDK optional strings) are `Option String`;
  `aws.ToString` is `awsToString` (nil becomes "").
* Go `error` values are the inductive `Err` below: an error made from a
  message (`errors.New` / `fmt.Errorf`), or the context-cancellation error
  `ctx.Err()`.
* Fallible Go functions returning `(T, error)` with the convention that the
  T result is meaningless on error are embedded as `Except Err T`; the ones
  that meaningfully return both (e.g. `collectRegion`, which returns the
  partially collected resources together with the error) are embedded as
  products with an `Option Err` component.
* Durations are `Nat` nanoseconds (Go `time.Duration` is an int64 nanosecond
  count, always nonnegative here).
* Randomness (`rand.Int63n`) and the context's done-channel are modelled as
  oracles: `rand : Nat → Nat` gives the k-th random draw (taken mod the
  bound, which is exactly the range `rand.Int63n` guarantees) and
  `ctxDone : Nat → Bool` says whether the cancellation signal fires during
  the k-th backoff wait (the `select` then takes the `ctx.Done()` branch).
* The `Collect` orchestrator runs one task per region and drains a results
  channel; completion order is nondeterministic in Go. The embedding drains
  results in request order, one fixed admissible schedule; the properties
  proved below are insensitive to the drain order.
-/

/-- Go `error` values occurring in the embedded code: an error carrying a
message, or the context cancellation error. -/
inductive Err where
  | mk (msg : String)
  | ctxCanceled
deriving DecidableEq, Repr

deriving instance DecidableEq for Except

/-- The message of an error (Go `err.Error()`). -/
def Err.message : Err → String
  | .mk s => s
  | .ctxCanceled => "context canceled"

/-- Substring test on char lists (Go `strings.Contains` on the underlying
bytes; these strings are ASCII so char-level containment coincides). -/
def containsSubChars (needle : List Char) : List Char → Bool
  | [] => needle.isEmpty
  | c :: rest => needle.isPrefixOf (c :: rest) || containsSubChars needle rest

/-- Go `strings.Contains hay sub`. -/
def containsSub (hay sub : String) : Bool :=
  containsSubChars sub.data hay.data

/-- Embeds `isRetryable` (retry.go): nil is not retryable; otherwise the
error message is scanned for the known throttling markers. -/
def isRetryable : Option Err → Bool
  | none => false
  | some e =>
    containsSub e.message "ThrottlingException" ||
    containsSub e.message "Throttling" ||
    containsSub e.message "Rate exceeded" ||
    containsSub e.message "RequestLimitExceeded" ||
    containsSub e.message "TooManyRequestsException"

/-- `DefaultBaseDelay = 100 * time.Millisecond`, in nanoseconds. -/
def DefaultBaseDelay : Nat := 100000000

/-- `DefaultMaxDelay = 5 * time.Second`, in nanoseconds. -/
def DefaultMaxDelay : Nat := 5000000000

/-- `DefaultMaxRetries = 3`. -/
def DefaultMaxRetries : Nat := 3

/-- `DefaultMaxConcurrency = 5`. -/
def DefaultMaxConcurrency : Nat := 5

/-- Observable trace of one `retry` execution: the returned result-or-error,
how many times the wrapped operation was invoked, and the durations (ns) of
the backoff sleeps that were completed. -/
structure RetryTrace (T : Type) where
  result : Except Err T
  calls : Nat
  sleeps : List Nat
deriving Repr

/-- The loop of `retry` (retry.go). `remaining = maxRetries - attempt`
counts the attempts still allowed after the current one, so the Go guard
`attempt == maxRetries` is `remaining = 0`. The operation is invocation
indexed (`fn attempt`), the jitter draw `rand.Int63n(int64(delay))` is
`rand attempt % delay`, and the `select` on `ctx.Done()` versus the timer is
decided by the oracle `ctxDone attempt`: when the cancellation signal fires
during the wait the sleep is not completed (not appended to the trace) and
`ctx.Err()` is returned. -/
def retryGo {T : Type} (fn : Nat → Except Err T) (ctxDone : Nat → Bool)
    (rand : Nat → Nat) :
    Nat → Nat → Nat → List Nat → RetryTrace T
  | remaining, attempt, delay, sleeps =>
    match fn attempt with
    | .ok v => ⟨.ok v, attempt + 1, sleeps⟩
    | .error e =>
      if !isRetryable (some e) then ⟨.error e, attempt + 1, sleeps⟩
      else
        match remaining with
        | 0 => ⟨.error e, attempt + 1, sleeps⟩
        | rem + 1 =>
          let jitter := rand attempt % delay
          let sleep := delay + jitter / 2
          if ctxDone attempt then ⟨.error Err.ctxCanceled, attempt + 1, sleeps⟩
          else
            retryGo fn ctxDone rand rem (attempt + 1)
              (min (delay * 2) DefaultMaxDelay) (sleeps ++ [sleep])

/-- Embeds `retry` (retry.go): up to `maxRetries + 1` invocations with
exponential jittered backoff, starting from `DefaultBaseDelay`. -/
def retry {T : Type} (maxRetries : Nat) (fn : Nat → Except Err T)
    (ctxDone : Nat → Bool) (rand : Nat → Nat) : RetryTrace T :=
  retryGo fn ctxDone rand maxRetries 0 DefaultBaseDelay []

example :
    (retry 3 (fun _ => (.ok 7 : Except Err Nat)) (fun _ => false)
      (fun _ => 0)).result = .ok 7 := by decide

example :
    (retry 3
      (fun i => if i = 0 then .error (.mk "Throttling: slow down") else (.ok 7 : Except Err Nat))
      (fun _ => false) (fun _ => 0)).calls = 2 := by decide

example :
    (retry 3 (fun _ => (.error (.mk "AccessDenied") : Except Err Nat))
      (fun _ => false) (fun _ => 0)).calls = 1 := by decide

/-- Go `aws.ToString`: dereference an optional string, nil becomes "". -/
def awsToString : Option String → String
  | none => ""
  | some s => s

/-- Embeds `Resource` (types.go). The Go named string types `ResourceType`
and `Region` are string aliases, embedded as `String`; `Configuration` is a
raw JSON payload carried uninterpreted (`Option String`, none for nil);
`Tags` is an association list (never populated by the collector). -/
structure Resource where
  ResourceType : String := ""
  ResourceID : String := ""
  ResourceName : String := ""
  Region : String := ""
  AvailabilityZone : String := ""
  AccountID : String := ""
  ARN : String := ""
  Configuration : Option String := none
  Tags : List (String × String) := []
deriving DecidableEq, Repr

/-- Embeds `Inventory` (types.go). The `CollectedAt` wall-clock timestamp is
outside the embedding (it never influences behavior) and is omitted. -/
structure Inventory where
  Profile : String
  Regions : List String
  Resources : List Resource
deriving DecidableEq, Repr

/-- Embeds `NewInventory` (types.go): empty resource list. -/
def NewInventory (profile : String) (regions : List String) : Inventory :=
  { Profile := profile, Regions := regions, Resources := [] }

/-- Embeds `Inventory.AddResource` (types.go): append one resource. -/
def AddResource (inv : Inventory) (r : Resource) : Inventory :=
  { inv with Resources := inv.Resources ++ [r] }

/-- Embeds `Inventory.ResourceCount` (types.go). -/
def ResourceCount (inv : Inventory) : Nat :=
  inv.Resources.length

/-- A Go `map[K]int` built by `counts[k]++`, embedded as an association
list in key-insertion order. `mapIncr` is one `counts[k]++` step. -/
def mapIncr {α : Type} [DecidableEq α] : List (α × Nat) → α → List (α × Nat)
  | [], k => [(k, 1)]
  | (k', v) :: rest, k =>
    if k = k' then (k', v + 1) :: rest else (k', v) :: mapIncr rest k

/-- Embeds `Inventory.ResourceCountByType` (types.go): a count map keyed by
resource type, built by one increment per resource. -/
def ResourceCountByType (inv : Inventory) : List (String × Nat) :=
  inv.Resources.foldl (fun m r => mapIncr m r.ResourceType) []

/-- Embeds `Inventory.ResourceCountByRegion` (types.go): a count map keyed
by region, built by one increment per resource. -/
def ResourceCountByRegion (inv : Inventory) : List (String × Nat) :=
  inv.Resources.foldl (fun m r => mapIncr m r.Region) []

/-- The sum of the values of a count map. -/
def sumValues (m : List (String × Nat)) : Nat :=
  (m.map Prod.snd).sum

/-- Embeds `RegionError` (errors.go). -/
structure RegionError where
  Region : String
  Err : Err
deriving DecidableEq, Repr

/-- Embeds `CollectErrors` (errors.go). -/
structure CollectErrors where
  Errors : List RegionError
deriving DecidableEq, Repr

/-- Embeds `CollectErrors.Regions` (errors.go). -/
def CollectErrors.Regions (ce : CollectErrors) : List String :=
  ce.Errors.map (fun e => e.Region)

/-- One `(category, count)` pair of a `GetDiscoveredResourceCounts` response
(AWS SDK `types.ResourceCount`): the category name (possibly empty) and the
reported count. -/
structure ResourceCountPair where
  ResourceType : String
  Count : Int
deriving DecidableEq, Repr

/-- One `GetDiscoveredResourceCountsOutput` page: the `(category, count)`
pairs and whether a continuation token (`NextToken`) was returned. -/
structure CountsPage where
  resourceCounts : List ResourceCountPair
  hasNext : Bool
deriving DecidableEq, Repr

/-- One identifier of a `ListDiscoveredResources` response (AWS SDK
`types.ResourceIdentifier`): optional id and optional name. -/
structure ResourceIdentifier where
  resourceId : Option String
  resourceName : Option String
deriving DecidableEq, Repr

/-- One `ListDiscoveredResourcesOutput` page: the identifiers and whether a
continuation token was returned. -/
structure ListPage where
  resourceIdentifiers : List ResourceIdentifier
  hasNext : Bool
deriving DecidableEq, Repr

/-- Embeds AWS SDK `types.ResourceKey` as built in `collectResourceType`. -/
structure ResourceKey where
  ResourceType : String
  ResourceId : Option String
deriving DecidableEq, Repr

/-- Embeds AWS SDK `types.BaseConfigurationItem`, the detail record returned
by `BatchGetResourceConfig`. -/
structure BaseConfigurationItem where
  ResourceType : String := ""
  ResourceId : Option String := none
  ResourceName : Option String := none
  AvailabilityZone : Option String := none
  AccountId : Option String := none
  Arn : Option String := none
  Configuration : Option String := none
deriving DecidableEq, Repr

/-- A region-bound `ConfigClient`, modelled by the outcome of each endpoint
call after its `retry` wrapper has run (the retry executor is verified
separately; its result is the wrapped operation's final outcome):
`countsPages` are the successive `GetDiscoveredResourceCounts` responses,
`listPages rt` the successive `ListDiscoveredResources` responses for
category `rt`, and `batchGet keys` the `BatchGetResourceConfig` response for
one batch of keys (a deterministic function of the request, as in the
repository's mock clients). -/
structure ConfigClient where
  countsPages : List (Except Err CountsPage)
  listPages : String → List (Except Err ListPage)
  batchGet : List ResourceKey → Except Err (List BaseConfigurationItem)

/-- The loop of `discoverResourceTypes` (collector.go): consume count pages
in order, keeping every category whose name is non-empty, until a page
carries no continuation token (an exhausted response sequence also ends the
pagination, matching the mock clients' empty default response). -/
def discoverLoop : List (Except Err CountsPage) → List String →
    Except Err (List String)
  | [], acc => .ok acc
  | p :: rest, acc =>
    match p with
    | .error e => .error e
    | .ok page =>
      let acc := acc ++ page.resourceCounts.filterMap
        (fun c => if c.ResourceType = "" then none else some c.ResourceType)
      if page.hasNext then discoverLoop rest acc else .ok acc

/-- Embeds `Collector.discoverResourceTypes` (collector.go). -/
def discoverResourceTypes (pages : List (Except Err CountsPage)) :
    Except Err (List String) :=
  discoverLoop pages []

/-- Builds the `Resource` for one `BaseConfigurationItem` as in
`batchGetResources` (collector.go): every field from the item except
`Region`, which is stamped with the collecting region. -/
def itemToResource (region : String) (item : BaseConfigurationItem) :
    Resource :=
  { ResourceType := item.ResourceType
    ResourceID := awsToString item.ResourceId
    ResourceName := awsToString item.ResourceName
    Region := region
    AvailabilityZone := awsToString item.AvailabilityZone
    AccountID := awsToString item.AccountId
    ARN := awsToString item.Arn
    Configuration := item.Configuration
    Tags := [] }

/-- Structural worker for `chunks100`: `fuel` bounds the number of list
elements still to consume, so the recursion is structural (and reduces in
the kernel); it is run with `fuel = l.length`, which always suffices. -/
def chunks100Fuel {α : Type} : Nat → List α → List (List α)
  | _, [] => []
  | 0, l => [l]
  | fuel + 1, x :: xs => (x :: xs).take 100 :: chunks100Fuel fuel (xs.drop 99)

/-- Splits a key list into the batches of at most 100 produced by the
`for i := 0; i < len(keys); i += 100` loop of `batchGetResources`. -/
def chunks100 {α : Type} (l : List α) : List (List α) :=
  chunks100Fuel l.length l

/-- The batch loop of `batchGetResources` (collector.go): one
`BatchGetResourceConfig` call per batch, failing on the first batch error,
otherwise appending one `Resource` per returned detail item. -/
def batchLoop (batchGet : List ResourceKey → Except Err (List BaseConfigurationItem))
    (region : String) : List (List ResourceKey) → List Resource →
    Except Err (List Resource)
  | [], acc => .ok acc
  | batch :: rest, acc =>
    match batchGet batch with
    | .error e => .error e
    | .ok items => batchLoop batchGet region rest (acc ++ items.map (itemToResource region))

/-- Embeds `Collector.batchGetResources` (collector.go). -/
def batchGetResources
    (batchGet : List ResourceKey → Except Err (List BaseConfigurationItem))
    (region : String) (keys : List ResourceKey) : Except Err (List Resource) :=
  batchLoop batchGet region (chunks100 keys) []

/-- The shallow fallback `Resource` synthesized in `collectResourceType`
when the batch-detail call for a page fails: only listing data (type, id,
name, region); account, ARN, availability zone and configuration are left
at their zero values. -/
def shallowResource (resourceType region : String) (ri : ResourceIdentifier) :
    Resource :=
  { ResourceType := resourceType
    ResourceID := awsToString ri.resourceId
    ResourceName := awsToString ri.resourceName
    Region := region
    AvailabilityZone := ""
    AccountID := ""
    ARN := ""
    Configuration := none
    Tags := [] }

/-- The page loop of `collectResourceType` (collector.go): for each listing
page, build one `ResourceKey` per identifier; when the page is non-empty,
resolve details via `batchGetResources`, degrading to one shallow resource
per identifier if that fails; stop when a page has no continuation token.
A listing-page error aborts with that error (discarding the accumulator, as
the Go code returns `nil, err`). -/
def collectTypeLoop
    (batchGet : List ResourceKey → Except Err (List BaseConfigurationItem))
    (region resourceType : String) :
    List (Except Err ListPage) → List Resource → Except Err (List Resource)
  | [], acc => .ok acc
  | p :: rest, acc =>
    match p with
    | .error e => .error e
    | .ok page =>
      let resourceKeys := page.resourceIdentifiers.map
        (fun ri => ResourceKey.mk resourceType ri.resourceId)
      let acc :=
        if resourceKeys.length > 0 then
          match batchGetResources batchGet region resourceKeys with
          | .error _ =>
            acc ++ page.resourceIdentifiers.map (shallowResource resourceType region)
          | .ok detailed => acc ++ detailed
        else acc
      if page.hasNext then collectTypeLoop batchGet region resourceType rest acc
      else .ok acc

/-- Embeds `Collector.collectResourceType` (collector.go). -/
def collectResourceType
    (batchGet : List ResourceKey → Except Err (List BaseConfigurationItem))
    (region resourceType : String) (pages : List (Except Err ListPage)) :
    Except Err (List Resource) :=
  collectTypeLoop batchGet region resourceType pages []

/-- The per-category result inside `collectRegion` for one discovered
category of `client` in `region`. -/
def typeResult (client : ConfigClient) (region resourceType : String) :
    Except Err (List Resource) :=
  collectResourceType client.batchGet region resourceType
    (client.listPages resourceType)

/-- The category loop of `collectRegion` (collector.go): collect each
discovered category in order; on a category failure return the resources
accumulated so far together with the error. -/
def collectRegionTypes (client : ConfigClient) (region : String) :
    List String → List Resource → List Resource × Option Err
  | [], acc => (acc, none)
  | rt :: rest, acc =>
    match typeResult client region rt with
    | .error e => (acc, some e)
    | .ok rtResources => collectRegionTypes client region rest (acc ++ rtResources)

/-- Embeds `Collector.collectRegion` (collector.go): a nil client is a
region error; a category-discovery failure is a region error with no
resources; otherwise the categories are collected in order. The optional
progress logger does not influence behavior and is omitted. -/
def collectRegion (clientFactory : String → Option ConfigClient)
    (region : String) : List Resource × Option Err :=
  match clientFactory region with
  | none => ([], some (Err.mk ("nil AWS Config client for region " ++ region)))
  | some client =>
    match discoverResourceTypes client.countsPages with
    | .error e => ([], some e)
    | .ok resourceTypes => collectRegionTypes client region resourceTypes []

/-- Embeds `CollectResult` (collector.go). -/
structure CollectResult where
  Region : String
  Resources : List Resource
  Err : Option Err
deriving DecidableEq, Repr

/-- The channel-drain loop of `Collect` (collector.go): a failed result
contributes one `RegionError`; a successful result's resources are appended
to the inventory one `AddResource` at a time. -/
def drainResults : List CollectResult → Inventory → List RegionError →
    Inventory × List RegionError
  | [], inv, errs => (inv, errs)
  | res :: rest, inv, errs =>
    match res.Err with
    | some e => drainResults rest inv (errs ++ [RegionError.mk res.Region e])
    | none => drainResults rest (res.Resources.foldl AddResource inv) errs

/-- Embeds `Collector.Collect` (collector.go): one region task per
requested region, results drained into the inventory and the region-error
list; a non-empty error list is returned as a `CollectErrors`. Go drains
the results channel in completion order, which is nondeterministic; the
embedding drains in request order, one admissible schedule (the concurrency
semaphore bounds parallelism but does not change which results are posted). -/
def Collect (profile : String) (clientFactory : String → Option ConfigClient)
    (regions : List String) : Inventory × Option CollectErrors :=
  let inv := NewInventory profile regions
  let results := regions.map (fun r =>
    let out := collectRegion clientFactory r
    CollectResult.mk r out.1 out.2)
  let drained := drainResults results inv []
  if drained.2.length > 0 then (drained.1, some (CollectErrors.mk drained.2))
  else (drained.1, none)

/-- Client whose listing succeeds and whose batch-detail call fails;
mirrors the BatchGetFallback scenario of collector_test.go. -/
def okClient : ConfigClient :=
  { countsPages := [.ok ⟨[⟨"AWS::EC2::Instance", 1⟩], false⟩]
    listPages := fun _ => [.ok ⟨[⟨some "i-12345", some "instance-1"⟩], false⟩]
    batchGet := fun _ => .error (.mk "batch get failed") }

example :
    (Collect "test" (fun _ => some okClient) ["us-east-1"]).1.Resources =
      [{ ResourceType := "AWS::EC2::Instance", ResourceID := "i-12345",
         ResourceName := "instance-1", Region := "us-east-1" }] := by decide

example : (Collect "test" (fun _ => some okClient) ["us-east-1"]).2 = none := by decide

/-- Client whose category discovery fails; mirrors the ErrorHandling
scenario of collector_test.go. -/
def failClient : ConfigClient :=
  { countsPages := [.error (.mk "access denied")]
    listPages := fun _ => []
    batchGet := fun _ => .ok [] }

example :
    (Collect "test"
      (fun r => some (if r = "us-east-1" then okClient else failClient))
      ["us-east-1", "us-west-2"]).2 =
      some ⟨[⟨"us-west-2", .mk "access denied"⟩]⟩ := by decide

example :
    (Collect "test" (fun _ => none) ["us-east-1"]).2 =
      some ⟨[⟨"us-east-1", .mk "nil AWS Config client for region us-east-1"⟩]⟩ := by
  decide

/-- One `counts[k]++` step raises the sum of the map's values by one. -/
theorem sumValues_mapIncr (m : List (String × Nat)) (k : String) :
    sumValues (mapIncr m k) = sumValues m + 1 := by
  induction m with
  | nil => simp [mapIncr, sumValues]
  | cons p rest ih =>
    obtain ⟨k', v⟩ := p
    by_cases h : k = k'
    · simp [mapIncr, h, sumValues]
      omega
    · simp [mapIncr, h, sumValues] at ih ⊢
      omega

/-- Folding `counts[f r]++` over a resource list adds the list's length to
the sum of the map's values. -/
theorem sumValues_foldl (f : Resource → String) (l : List Resource) :
    ∀ m, sumValues (l.foldl (fun m r => mapIncr m (f r)) m) = sumValues m + l.length := by
  induction l with
  | nil => intro m; simp
  | cons r rest ih =>
    intro m
    simp only [List.foldl_cons, ih, sumValues_mapIncr, List.length_cons]
    omega

/-- C9: for every inventory, the sum of the values of `ResourceCountByType`
equals the sum of the values of `ResourceCountByRegion`, equals
`ResourceCount`, equals the length of the resource list. The derived views
are pure functions of the inventory (the embedding is functional and the Go
methods only read the resource slice), so the inventory is unchanged. -/
theorem inventory_derived_counts_consistent (inv : Inventory) :
    sumValues (ResourceCountByType inv) = sumValues (ResourceCountByRegion inv)
    ∧ sumValues (ResourceCountByType inv) = ResourceCount inv
    ∧ ResourceCount inv = inv.Resources.length := by
  have h1 := sumValues_foldl (fun r => r.ResourceType) inv.Resources []
  have h2 := sumValues_foldl (fun r => r.Region) inv.Resources []
  simp [sumValues] at h1 h2
  refine ⟨?_, ?_, rfl⟩ <;>
    simp [ResourceCountByType, ResourceCountByRegion, ResourceCount, sumValues, h1, h2]

/-- The count pages actually consumed by the cursor-driven loop: every page
up to and including the first one without a continuation token. -/
def pagesUntilDone : List CountsPage → List CountsPage
  | [] => []
  | p :: rest => if p.hasNext then p :: pagesUntilDone rest else [p]

/-- The categories of one page kept by `discoverResourceTypes`: those with a
non-empty name. -/
def namedTypes (page : CountsPage) : List String :=
  page.resourceCounts.filterMap
    (fun c => if c.ResourceType = "" then none else some c.ResourceType)

/-- The page loop characterized on an error-free response sequence. -/
theorem discoverLoop_ok (pgs : List CountsPage) :
    ∀ acc, discoverLoop (pgs.map Except.ok) acc =
      .ok (acc ++ ((pagesUntilDone pgs).map namedTypes).flatten) := by
  induction pgs with
  | nil => intro acc; simp [discoverLoop, pagesUntilDone]
  | cons p rest ih =>
    intro acc
    by_cases h : p.hasNext
    · simp [discoverLoop, pagesUntilDone, h, ih, namedTypes, List.append_assoc]
    · simp [discoverLoop, pagesUntilDone, h, namedTypes]

/-- C2 (amended): on every error-free sequence of resource-count pages,
`discoverResourceTypes` returns exactly the categories with a non-empty
name, in page order, across the pages consumed until the continuation
cursor is exhausted. The reported count is not consulted: a named category
with count zero is kept (see the counterexample). -/
theorem discover_resource_types_named (pgs : List CountsPage) :
    discoverResourceTypes (pgs.map Except.ok) =
      .ok (((pagesUntilDone pgs).map namedTypes).flatten) := by
  simpa using discoverLoop_ok pgs []

/-- The discovery loop as the claim words it: keep a category only when its
name is non-empty and its reported count is non-zero. Stated from the
claim's words, for comparison with `discoverLoop` (the code). -/
def discoverClaimLoop : List (Except Err CountsPage) → List String →
    Except Err (List String)
  | [], acc => .ok acc
  | p :: rest, acc =>
    match p with
    | .error e => .error e
    | .ok page =>
      let acc := acc ++ page.resourceCounts.filterMap
        (fun c => if c.ResourceType = "" ∨ c.Count = 0 then none else some c.ResourceType)
      if page.hasNext then discoverClaimLoop rest acc else .ok acc

/-- `discoverResourceTypes` as the claim words it (name non-empty and count
non-zero). -/
def discoverResourceTypesClaim (pages : List (Except Err CountsPage)) :
    Except Err (List String) :=
  discoverClaimLoop pages []

/-- C2 counterexample: on a single page reporting category
"AWS::EC2::Instance" with count 0, the code keeps the category (it filters
only on the name), while the claim's filter would drop it; the two
disagree at this input. -/
theorem discover_zero_count_included :
    discoverResourceTypes [.ok ⟨[⟨"AWS::EC2::Instance", 0⟩], false⟩] =
      .ok ["AWS::EC2::Instance"]
    ∧ discoverResourceTypesClaim [.ok ⟨[⟨"AWS::EC2::Instance", 0⟩], false⟩] =
      .ok []
    ∧ discoverResourceTypes [.ok ⟨[⟨"AWS::EC2::Instance", 0⟩], false⟩] ≠
      discoverResourceTypesClaim [.ok ⟨[⟨"AWS::EC2::Instance", 0⟩], false⟩] := by
  refine ⟨by decide, by decide, by decide⟩

/-- C3: when a listing page succeeds but the batch-detail resolution for
that page's identifiers fails, `collectResourceType` returns (with no
error) exactly one shallow resource per identifier of the page: type, id,
name and region from the listing, with account id, ARN, availability zone
and configuration left empty (see `shallowResource`). -/
theorem collect_resource_type_batch_fallback
    (batchGet : List ResourceKey → Except Err (List BaseConfigurationItem))
    (region rt : String) (page : ListPage) (e : Err)
    (hnext : page.hasNext = false)
    (hfail : batchGetResources batchGet region
        (page.resourceIdentifiers.map (fun ri => ResourceKey.mk rt ri.resourceId)) =
        .error e) :
    collectResourceType batchGet region rt [.ok page] =
      .ok (page.resourceIdentifiers.map (shallowResource rt region)) := by
  have hne : page.resourceIdentifiers ≠ [] := by
    intro h
    rw [h] at hfail
    simp [batchGetResources, chunks100, chunks100Fuel, batchLoop] at hfail
  have hlen : 0 <
      (page.resourceIdentifiers.map (fun ri => ResourceKey.mk rt ri.resourceId)).length := by
    simpa [List.length_pos] using hne
  simp [collectResourceType, collectTypeLoop, hfail, hnext, hlen]

/-- Concrete listing page used to witness the batch-fallback theorem. -/
def fallbackPage : ListPage :=
  ⟨[⟨some "i-1", some "web-server"⟩, ⟨some "i-2", none⟩], false⟩

/-- Concrete always-failing batch-detail endpoint. -/
def failingBatchGet : List ResourceKey → Except Err (List BaseConfigurationItem) :=
  fun _ => .error (.mk "batch get failed")

theorem collect_resource_type_batch_fallback_witness :
    fallbackPage.hasNext = false
    ∧ batchGetResources failingBatchGet "us-east-1"
        (fallbackPage.resourceIdentifiers.map
          (fun ri => ResourceKey.mk "AWS::EC2::Instance" ri.resourceId)) =
        .error (.mk "batch get failed")
    ∧ collectResourceType failingBatchGet "us-east-1" "AWS::EC2::Instance"
        [.ok fallbackPage] =
      .ok (fallbackPage.resourceIdentifiers.map
        (shallowResource "AWS::EC2::Instance" "us-east-1")) :=
  ⟨by decide, by decide,
    collect_resource_type_batch_fallback failingBatchGet "us-east-1"
      "AWS::EC2::Instance" fallbackPage (.mk "batch get failed")
      (by decide) (by decide)⟩

/-- C6: an operation whose first invocation returns a non-retryable error
is invoked exactly once; `retry` returns that error unchanged and completes
no backoff sleep. -/
theorem retry_terminal_error_single_call {T : Type} (fn : Nat → Except Err T)
    (ctxDone : Nat → Bool) (rand : Nat → Nat) (maxRetries : Nat) (e : Err)
    (h0 : fn 0 = .error e) (hterm : isRetryable (some e) = false) :
    retry maxRetries fn ctxDone rand = ⟨.error e, 1, []⟩ := by
  simp [retry, retryGo, h0, hterm]

theorem retry_terminal_error_single_call_witness :
    (fun (_ : Nat) =>
      (.error (.mk "AccessDeniedException: not authorized") : Except Err Nat)) 0 =
      .error (.mk "AccessDeniedException: not authorized")
    ∧ isRetryable (some (.mk "AccessDeniedException: not authorized")) = false
    ∧ retry 3
        (fun _ => (.error (.mk "AccessDeniedException: not authorized") : Except Err Nat))
        (fun _ => false) (fun _ => 0) =
      ⟨.error (.mk "AccessDeniedException: not authorized"), 1, []⟩ :=
  ⟨rfl, by decide,
    retry_terminal_error_single_call
      (fun _ => .error (.mk "AccessDeniedException: not authorized"))
      (fun _ => false) (fun _ => 0) 3
      (.mk "AccessDeniedException: not authorized") rfl (by decide)⟩

/-- Whether an operation outcome is a retryable error. -/
def isErrRetryable {T : Type} : Except Err T → Bool
  | .ok _ => false
  | .error e => isRetryable (some e)

/-- One-step unfolding of the retry loop. -/
theorem retryGo_unfold {T : Type} (fn : Nat → Except Err T)
    (ctxDone : Nat → Bool) (rand : Nat → Nat) (remaining attempt delay : Nat)
    (sleeps : List Nat) :
    retryGo fn ctxDone rand remaining attempt delay sleeps =
      match fn attempt with
      | .ok v => ⟨.ok v, attempt + 1, sleeps⟩
      | .error e =>
        if !isRetryable (some e) then ⟨.error e, attempt + 1, sleeps⟩
        else
          match remaining with
          | 0 => ⟨.error e, attempt + 1, sleeps⟩
          | rem + 1 =>
            if ctxDone attempt then ⟨.error Err.ctxCanceled, attempt + 1, sleeps⟩
            else
              retryGo fn ctxDone rand rem (attempt + 1)
                (min (delay * 2) DefaultMaxDelay)
                (sleeps ++ [delay + rand attempt % delay / 2]) := by
  rw [retryGo.eq_1]

/-- The retry loop, started anywhere, reaches the first success: if the `f`
invocations after `attempt` all return retryable errors with no
cancellation, and invocation `attempt + f` succeeds with at least `f`
attempts remaining, the loop returns that success after `attempt + f + 1`
total invocations. -/
theorem retryGo_reaches_success {T : Type} (fn : Nat → Except Err T)
    (ctxDone : Nat → Bool) (rand : Nat → Nat) (v : T) :
    ∀ (f remaining attempt delay : Nat) (sleeps : List Nat),
    f ≤ remaining →
    (∀ i, i < f → isErrRetryable (fn (attempt + i)) = true) →
    (∀ i, i < f → ctxDone (attempt + i) = false) →
    fn (attempt + f) = .ok v →
    (retryGo fn ctxDone rand remaining attempt delay sleeps).result = .ok v
    ∧ (retryGo fn ctxDone rand remaining attempt delay sleeps).calls = attempt + f + 1 := by
  intro f
  induction f with
  | zero =>
    intro remaining attempt delay sleeps _ _ _ hsucc
    simp only [Nat.add_zero] at hsucc
    rw [retryGo_unfold, hsucc]
    exact ⟨rfl, rfl⟩
  | succ f ih =>
    intro remaining attempt delay sleeps hrem hretry hctx hsucc
    have h0 : isErrRetryable (fn attempt) = true := by
      simpa using hretry 0 (by omega)
    cases hfn : fn attempt with
    | ok w => rw [hfn] at h0; simp [isErrRetryable] at h0
    | error e =>
      rw [hfn] at h0
      have hret : isRetryable (some e) = true := h0
      obtain ⟨rem, rfl⟩ : ∃ rem, remaining = rem + 1 :=
        ⟨remaining - 1, by omega⟩
      have hcd : ctxDone attempt = false := by
        simpa using hctx 0 (by omega)
      have step :
          retryGo fn ctxDone rand (rem + 1) attempt delay sleeps =
            retryGo fn ctxDone rand rem (attempt + 1)
              (min (delay * 2) DefaultMaxDelay)
              (sleeps ++ [delay + rand attempt % delay / 2]) := by
        rw [retryGo_unfold, hfn]
        simp [hret, hcd]
      rw [step]
      have hretry2 : ∀ i, i < f → isErrRetryable (fn (attempt + 1 + i)) = true := by
        intro i hi
        have heq : attempt + 1 + i = attempt + (i + 1) := by omega
        rw [heq]
        exact hretry (i + 1) (by omega)
      have hctx2 : ∀ i, i < f → ctxDone (attempt + 1 + i) = false := by
        intro i hi
        have heq : attempt + 1 + i = attempt + (i + 1) := by omega
        rw [heq]
        exact hctx (i + 1) (by omega)
      have hsucc2 : fn (attempt + 1 + f) = .ok v := by
        have heq : attempt + 1 + f = attempt + (f + 1) := by omega
        rw [heq]; exact hsucc
      have := ih rem (attempt + 1)
        (min (delay * 2) DefaultMaxDelay)
        (sleeps ++ [delay + rand attempt % delay / 2])
        (by omega) hretry2 hctx2 hsucc2
      exact ⟨this.1, by omega⟩

/-- The retry loop invokes the operation at most `remaining + 1` more
times. -/
theorem retryGo_calls_le {T : Type} (fn : Nat → Except Err T)
    (ctxDone : Nat → Bool) (rand : Nat → Nat) :
    ∀ (remaining attempt delay : Nat) (sleeps : List Nat),
    (retryGo fn ctxDone rand remaining attempt delay sleeps).calls ≤
      attempt + remaining + 1 := by
  intro remaining
  induction remaining with
  | zero =>
    intro attempt delay sleeps
    rw [retryGo_unfold]
    cases hfn : fn attempt with
    | ok v => simp
    | error e => cases isRetryable (some e) <;> simp
  | succ rem ih =>
    intro attempt delay sleeps
    rw [retryGo_unfold]
    cases hfn : fn attempt with
    | ok v => simp
    | error e =>
      by_cases hret : isRetryable (some e) = true
      · by_cases hcd : ctxDone attempt = true
        · simp [hret, hcd]
        · have := ih (attempt + 1) (min (delay * 2) DefaultMaxDelay)
            (sleeps ++ [delay + rand attempt % delay / 2])
          simp [hret, hcd]
          omega
      · simp [hret]

/-- C5: an operation whose first `f` invocations return retryable errors,
with `f` below the retry ceiling, followed by a success, makes `retry`
return that success after exactly `f + 1` invocations (absent
cancellation); and every operation whatsoever is invoked at most
`maxRetries + 1` times. -/
theorem retry_transient_then_success {T : Type} (fn : Nat → Except Err T)
    (ctxDone : Nat → Bool) (rand : Nat → Nat) (maxRetries f : Nat) (v : T)
    (hf : f < maxRetries)
    (hretry : ∀ i, i < f → isErrRetryable (fn i) = true)
    (hctx : ∀ i, i < f → ctxDone i = false)
    (hsucc : fn f = .ok v) :
    ((retry maxRetries fn ctxDone rand).result = .ok v
      ∧ (retry maxRetries fn ctxDone rand).calls = f + 1)
    ∧ ∀ (U : Type) (gn : Nat → Except Err U) (cd : Nat → Bool)
        (rd : Nat → Nat) (mr : Nat),
        (retry mr gn cd rd).calls ≤ mr + 1 := by
  constructor
  · have := retryGo_reaches_success fn ctxDone rand v f maxRetries 0
      DefaultBaseDelay [] (by omega)
      (by simpa using hretry) (by simpa using hctx) (by simpa using hsucc)
    exact ⟨this.1, by simpa [retry] using this.2⟩
  · intro U gn cd rd mr
    have := retryGo_calls_le gn cd rd mr 0 DefaultBaseDelay []
    simpa [retry] using this

/-- Concrete operation for the C5 witness: two throttling failures, then
success. -/
def transientFn : Nat → Except Err Nat :=
  fun i => if i < 2 then .error (.mk "ThrottlingException: Rate exceeded") else .ok 42

theorem retry_transient_then_success_witness :
    (2 < 3
      ∧ (∀ i, i < 2 → isErrRetryable (transientFn i) = true)
      ∧ transientFn 2 = .ok 42)
    ∧ ((retry 3 transientFn (fun _ => false) (fun _ => 0)).result = .ok 42
      ∧ (retry 3 transientFn (fun _ => false) (fun _ => 0)).calls = 3)
    ∧ (retry 5 transientFn (fun _ => false) (fun _ => 0)).calls ≤ 6 := by
  have h := retry_transient_then_success transientFn (fun _ => false) (fun _ => 0)
    3 2 42 (by decide) (by decide) (fun i _ => rfl) (by decide)
  exact ⟨⟨by decide, by decide, by decide⟩, h.1,
    h.2 Nat transientFn (fun _ => false) (fun _ => 0) 5⟩

/-- The scheduled (pre-jitter) backoff delay before the k-th retry, as the
doubling-with-cap recurrence of `retry` computes it in closed form. -/
def scheduledDelay (k : Nat) : Nat :=
  min (DefaultBaseDelay * 2 ^ (k - 1)) DefaultMaxDelay

/-- The base delay is the first scheduled delay. -/
theorem scheduledDelay_one : scheduledDelay 1 = DefaultBaseDelay := by
  norm_num [scheduledDelay, DefaultBaseDelay, DefaultMaxDelay]

/-- Doubling a scheduled delay and capping it gives the next scheduled
delay. -/
theorem scheduledDelay_succ (k : Nat) (hk : 1 ≤ k) :
    min (scheduledDelay k * 2) DefaultMaxDelay = scheduledDelay (k + 1) := by
  obtain ⟨m, rfl⟩ : ∃ m, k = m + 1 := ⟨k - 1, by omega⟩
  simp only [scheduledDelay, Nat.add_sub_cancel, pow_succ, ← Nat.mul_assoc]
  generalize DefaultBaseDelay * 2 ^ m = u
  omega

/-- Scheduled delays are positive. -/
theorem scheduledDelay_pos (k : Nat) : 0 < scheduledDelay k := by
  have h1 : 0 < DefaultBaseDelay * 2 ^ (k - 1) :=
    Nat.mul_pos (by norm_num [DefaultBaseDelay]) (pow_pos (by norm_num) _)
  have h2 : 0 < DefaultMaxDelay := by norm_num [DefaultMaxDelay]
  simp only [scheduledDelay, Nat.lt_min]
  exact ⟨h1, h2⟩

/-- Invariant of the retry loop: starting from a state whose delay is the
scheduled delay for the next sleep and whose completed sleeps already
follow the schedule, every completed sleep of the final trace is its
scheduled delay plus half of that sleep's jitter draw. -/
theorem retryGo_sleeps_spec {T : Type} (fn : Nat → Except Err T)
    (ctxDone : Nat → Bool) (rand : Nat → Nat) :
    ∀ (remaining attempt delay : Nat) (sleeps : List Nat),
    delay = scheduledDelay (attempt + 1) →
    sleeps.length = attempt →
    (∀ j, j < sleeps.length →
        sleeps.getD j 0 = scheduledDelay (j + 1) + (rand j % scheduledDelay (j + 1)) / 2) →
    ∀ j, j < (retryGo fn ctxDone rand remaining attempt delay sleeps).sleeps.length →
      (retryGo fn ctxDone rand remaining attempt delay sleeps).sleeps.getD j 0 =
        scheduledDelay (j + 1) + (rand j % scheduledDelay (j + 1)) / 2 := by
  intro remaining
  induction remaining with
  | zero =>
    intro attempt delay sleeps _ _ hprev j hj
    have hs : (retryGo fn ctxDone rand 0 attempt delay sleeps).sleeps = sleeps := by
      rw [retryGo_unfold]
      cases hfn : fn attempt with
      | ok v => rfl
      | error e => by_cases hret : isRetryable (some e) = true <;> simp [hret]
    rw [hs] at hj ⊢
    exact hprev j hj
  | succ rem ih =>
    intro attempt delay sleeps hdelay hlen hprev j hj
    cases hfn : fn attempt with
    | ok v =>
      have hs : (retryGo fn ctxDone rand (rem + 1) attempt delay sleeps).sleeps = sleeps := by
        rw [retryGo_unfold, hfn]
      rw [hs] at hj ⊢
      exact hprev j hj
    | error e =>
      by_cases hret : isRetryable (some e) = true
      · by_cases hcd : ctxDone attempt = true
        · have hs : (retryGo fn ctxDone rand (rem + 1) attempt delay sleeps).sleeps = sleeps := by
            rw [retryGo_unfold, hfn]
            simp [hret, hcd]
          rw [hs] at hj ⊢
          exact hprev j hj
        · have hstep :
              retryGo fn ctxDone rand (rem + 1) attempt delay sleeps =
                retryGo fn ctxDone rand rem (attempt + 1)
                  (min (delay * 2) DefaultMaxDelay)
                  (sleeps ++ [delay + rand attempt % delay / 2]) := by
            rw [retryGo_unfold, hfn]
            simp [hret, hcd]
          rw [hstep] at hj ⊢
          refine ih (attempt + 1) (min (delay * 2) DefaultMaxDelay)
            (sleeps ++ [delay + rand attempt % delay / 2]) ?_ ?_ ?_ j hj
          · rw [hdelay]
            exact scheduledDelay_succ (attempt + 1) (by omega)
          · simp [hlen]
          · intro j2 hj2
            rcases Nat.lt_or_ge j2 sleeps.length with hlt | hge
            · rw [List.getD_append _ _ _ _ hlt]
              exact hprev j2 hlt
            · have hj2eq : j2 = sleeps.length := by
                simp [List.length_append] at hj2
                omega
              subst hj2eq
              rw [List.getD_append_right _ _ _ _ hge]
              simp only [Nat.sub_self, List.getD]
              simp [hlen, hdelay]
      · have hs : (retryGo fn ctxDone rand (rem + 1) attempt delay sleeps).sleeps = sleeps := by
          rw [retryGo_unfold, hfn]
          simp [hret]
        rw [hs] at hj ⊢
        exact hprev j hj

/-- C7: every completed backoff sleep of any `retry` run follows the
schedule: the scheduled (pre-jitter) delay before the (j+1)-th retry is
min(DefaultBaseDelay * 2^j, DefaultMaxDelay) — 100 ms doubling, capped at
5 s — and the actual sleep is that scheduled delay plus half of the jitter
draw, an addition of between 0% and 50% of the scheduled delay. -/
theorem retry_backoff_schedule {T : Type} (fn : Nat → Except Err T)
    (ctxDone : Nat → Bool) (rand : Nat → Nat) (maxRetries j : Nat)
    (hj : j < (retry maxRetries fn ctxDone rand).sleeps.length) :
    (retry maxRetries fn ctxDone rand).sleeps.getD j 0 =
      scheduledDelay (j + 1) + (rand j % scheduledDelay (j + 1)) / 2
    ∧ scheduledDelay (j + 1) = min (DefaultBaseDelay * 2 ^ j) DefaultMaxDelay
    ∧ 2 * ((rand j % scheduledDelay (j + 1)) / 2) ≤ scheduledDelay (j + 1) := by
  refine ⟨?_, by simp [scheduledDelay], ?_⟩
  · exact retryGo_sleeps_spec fn ctxDone rand maxRetries 0 DefaultBaseDelay []
      (by rw [scheduledDelay_one]) rfl (by intro j2 hj2; simp at hj2) j hj
  · have h1 : rand j % scheduledDelay (j + 1) < scheduledDelay (j + 1) :=
      Nat.mod_lt _ (scheduledDelay_pos _)
    omega

/-- Concrete operation for the C7 witness: one throttling failure, then
success, so exactly one backoff sleep completes. -/
def jitterFn : Nat → Except Err Nat :=
  fun i => if i = 0 then .error (.mk "Rate exceeded") else .ok 5

theorem retry_backoff_schedule_witness :
    0 < (retry 3 jitterFn (fun _ => false) (fun _ => 33)).sleeps.length
    ∧ ((retry 3 jitterFn (fun _ => false) (fun _ => 33)).sleeps.getD 0 0 =
        scheduledDelay 1 + (33 % scheduledDelay 1) / 2
      ∧ scheduledDelay 1 = min (DefaultBaseDelay * 2 ^ 0) DefaultMaxDelay
      ∧ 2 * ((33 % scheduledDelay 1) / 2) ≤ scheduledDelay 1) :=
  ⟨by decide,
    retry_backoff_schedule jitterFn (fun _ => false) (fun _ => 33) 3 0 (by decide)⟩

/-- The retry loop under retryable failures with the cancellation signal
firing during the backoff after absolute attempt `attempt + k`: the loop
stops with the cancellation error, having invoked the operation `k + 1`
more times and completed only `k` more sleeps (the pending one is never
completed). -/
theorem retryGo_cancel {T : Type} (fn : Nat → Except Err T)
    (ctxDone : Nat → Bool) (rand : Nat → Nat) :
    ∀ (k remaining attempt delay : Nat) (sleeps : List Nat),
    k < remaining →
    (∀ i, i ≤ k → isErrRetryable (fn (attempt + i)) = true) →
    (∀ i, i < k → ctxDone (attempt + i) = false) →
    ctxDone (attempt + k) = true →
    (retryGo fn ctxDone rand remaining attempt delay sleeps).result =
        .error Err.ctxCanceled
    ∧ (retryGo fn ctxDone rand remaining attempt delay sleeps).calls = attempt + k + 1
    ∧ (retryGo fn ctxDone rand remaining attempt delay sleeps).sleeps.length =
        sleeps.length + k := by
  intro k
  induction k with
  | zero =>
    intro remaining attempt delay sleeps hrem hretry _ hfire
    simp only [Nat.add_zero] at hfire
    have h0 : isErrRetryable (fn attempt) = true := by
      simpa using hretry 0 (by omega)
    cases hfn : fn attempt with
    | ok w => rw [hfn] at h0; simp [isErrRetryable] at h0
    | error e =>
      rw [hfn] at h0
      have hret : isRetryable (some e) = true := h0
      obtain ⟨rem, rfl⟩ : ∃ rem, remaining = rem + 1 :=
        ⟨remaining - 1, by omega⟩
      refine ⟨?_, ?_, ?_⟩ <;> (rw [retryGo_unfold, hfn]; simp [hret, hfire])
  | succ k ih =>
    intro remaining attempt delay sleeps hrem hretry hctx hfire
    have h0 : isErrRetryable (fn attempt) = true := by
      simpa using hretry 0 (by omega)
    cases hfn : fn attempt with
    | ok w => rw [hfn] at h0; simp [isErrRetryable] at h0
    | error e =>
      rw [hfn] at h0
      have hret : isRetryable (some e) = true := h0
      obtain ⟨rem, rfl⟩ : ∃ rem, remaining = rem + 1 :=
        ⟨remaining - 1, by omega⟩
      have hcd : ctxDone attempt = false := by
        simpa using hctx 0 (by omega)
      have hstep :
          retryGo fn ctxDone rand (rem + 1) attempt delay sleeps =
            retryGo fn ctxDone rand rem (attempt + 1)
              (min (delay * 2) DefaultMaxDelay)
              (sleeps ++ [delay + rand attempt % delay / 2]) := by
        rw [retryGo_unfold, hfn]
        simp [hret, hcd]
      have hretry2 : ∀ i, i ≤ k → isErrRetryable (fn (attempt + 1 + i)) = true := by
        intro i hi
        have heq : attempt + 1 + i = attempt + (i + 1) := by omega
        rw [heq]
        exact hretry (i + 1) (by omega)
      have hctx2 : ∀ i, i < k → ctxDone (attempt + 1 + i) = false := by
        intro i hi
        have heq : attempt + 1 + i = attempt + (i + 1) := by omega
        rw [heq]
        exact hctx (i + 1) (by omega)
      have hfire2 : ctxDone (attempt + 1 + k) = true := by
        have heq : attempt + 1 + k = attempt + (k + 1) := by omega
        rw [heq]
        exact hfire
      have := ih rem (attempt + 1) (min (delay * 2) DefaultMaxDelay)
        (sleeps ++ [delay + rand attempt % delay / 2])
        (by omega) hretry2 hctx2 hfire2
      rw [hstep]
      refine ⟨this.1, by omega, ?_⟩
      have hlen := this.2.2
      simp [List.length_append] at hlen
      omega

/-- C8: if the cancellation signal fires during the backoff wait that
follows attempt `k` (all attempts so far having failed retryably), `retry`
returns the context's cancellation error, the pending sleep is never
completed (only the `k` earlier sleeps are), and the operation is not
invoked again (exactly `k + 1` invocations). -/
theorem retry_cancellation_during_backoff {T : Type} (fn : Nat → Except Err T)
    (ctxDone : Nat → Bool) (rand : Nat → Nat) (maxRetries k : Nat)
    (hk : k < maxRetries)
    (hretry : ∀ i, i ≤ k → isErrRetryable (fn i) = true)
    (hctx : ∀ i, i < k → ctxDone i = false)
    (hfire : ctxDone k = true) :
    (retry maxRetries fn ctxDone rand).result = .error Err.ctxCanceled
    ∧ (retry maxRetries fn ctxDone rand).calls = k + 1
    ∧ (retry maxRetries fn ctxDone rand).sleeps.length = k := by
  have := retryGo_cancel fn ctxDone rand k maxRetries 0 DefaultBaseDelay [] hk
    (by simpa using hretry) (by simpa using hctx) (by simpa using hfire)
  simpa [retry] using this

/-- Concrete always-throttled operation for the C8 witness. -/
def cancelFn : Nat → Except Err Nat :=
  fun _ => .error (.mk "Throttling")

/-- Cancellation oracle firing during the second backoff wait. -/
def fireAtOne : Nat → Bool :=
  fun i => i == 1

theorem retry_cancellation_during_backoff_witness :
    (1 < 3 ∧ (∀ i, i ≤ 1 → isErrRetryable (cancelFn i) = true)
      ∧ fireAtOne 1 = true)
    ∧ (retry 3 cancelFn fireAtOne (fun _ => 0)).result = .error Err.ctxCanceled
    ∧ (retry 3 cancelFn fireAtOne (fun _ => 0)).calls = 2
    ∧ (retry 3 cancelFn fireAtOne (fun _ => 0)).sleeps.length = 1 :=
  ⟨⟨by decide, by decide, by decide⟩,
    retry_cancellation_during_backoff cancelFn fireAtOne (fun _ => 0) 3 1
      (by decide) (by decide) (by decide) (by decide)⟩

/-- Whether an `Except` is a success. -/
def exceptIsOk {E A : Type} : Except E A → Bool
  | .ok _ => true
  | .error _ => false

/-- The resource list of a successful per-category result ([] on error). -/
def okList : Except Err (List Resource) → List Resource
  | .ok rs => rs
  | .error _ => []

/-- The error of a failed result (none on success). -/
def errOf {A : Type} : Except Err A → Option Err
  | .ok _ => none
  | .error e => some e

/-- Closed form of the category loop of `collectRegion`: the resources are
the accumulator followed by the concatenated results of the categories
before the first failing one, and the error (if any) is the first failing
category's error. -/
theorem collectRegionTypes_eq (client : ConfigClient) (region : String) :
    ∀ (rts : List String) (acc : List Resource),
    collectRegionTypes client region rts acc =
      (acc ++ ((rts.takeWhile (fun t => exceptIsOk (typeResult client region t))).map
          (fun t => okList (typeResult client region t))).flatten,
       match rts.dropWhile (fun t => exceptIsOk (typeResult client region t)) with
       | [] => none
       | t :: _ => errOf (typeResult client region t)) := by
  intro rts
  induction rts with
  | nil => intro acc; simp [collectRegionTypes]
  | cons t rest ih =>
    intro acc
    cases h : typeResult client region t with
    | error e =>
      simp [collectRegionTypes, h, List.takeWhile_cons, List.dropWhile_cons,
        exceptIsOk, errOf]
    | ok rs =>
      simp [collectRegionTypes, h, List.takeWhile_cons, List.dropWhile_cons,
        exceptIsOk, okList, ih, List.append_assoc]

/-- C4: when, after some categories succeeded, identifier listing for a
category fails region-fatally, `collectRegion` returns that category's
error together with all resources of the categories completed before it
(they are not discarded). -/
theorem collect_region_keeps_completed_categories
    (clientFactory : String → Option ConfigClient) (region : String)
    (client : ConfigClient) (ts rest : List String) (t : String) (e : Err)
    (hclient : clientFactory region = some client)
    (hdisc : discoverResourceTypes client.countsPages = .ok ts)
    (hsplit : ts.dropWhile (fun u => exceptIsOk (typeResult client region u)) = t :: rest)
    (hfail : typeResult client region t = .error e) :
    collectRegion clientFactory region =
      (((ts.takeWhile (fun u => exceptIsOk (typeResult client region u))).map
          (fun u => okList (typeResult client region u))).flatten,
       some e) := by
  simp [collectRegion, hclient, hdisc, collectRegionTypes_eq, hsplit, hfail, errOf]

/-- Client for the C4 witness: discovery yields two categories, the first
collects fine, the second fails at the listing stage. -/
def twoCategoryClient : ConfigClient :=
  { countsPages :=
      [.ok ⟨[⟨"AWS::EC2::Instance", 1⟩, ⟨"AWS::S3::Bucket", 1⟩], false⟩]
    listPages := fun rt =>
      if rt = "AWS::EC2::Instance" then
        [.ok ⟨[⟨some "i-1", some "one"⟩], false⟩]
      else [.error (.mk "listing failed")]
    batchGet := fun _ =>
      .ok [{ ResourceType := "AWS::EC2::Instance", ResourceId := some "i-1",
             ResourceName := some "one", AccountId := some "123456789012" }] }

/-- Factory handing out `twoCategoryClient` everywhere. -/
def twoCategoryFactory : String → Option ConfigClient :=
  fun _ => some twoCategoryClient

theorem collect_region_keeps_completed_categories_witness :
    twoCategoryFactory "us-east-1" = some twoCategoryClient
    ∧ discoverResourceTypes twoCategoryClient.countsPages =
        .ok ["AWS::EC2::Instance", "AWS::S3::Bucket"]
    ∧ (["AWS::EC2::Instance", "AWS::S3::Bucket"].dropWhile
        (fun u => exceptIsOk (typeResult twoCategoryClient "us-east-1" u))) =
        ["AWS::S3::Bucket"]
    ∧ typeResult twoCategoryClient "us-east-1" "AWS::S3::Bucket" =
        .error (.mk "listing failed")
    ∧ collectRegion twoCategoryFactory "us-east-1" =
      (((["AWS::EC2::Instance", "AWS::S3::Bucket"].takeWhile
          (fun u => exceptIsOk (typeResult twoCategoryClient "us-east-1" u))).map
          (fun u => okList (typeResult twoCategoryClient "us-east-1" u))).flatten,
       some (.mk "listing failed")) :=
  ⟨rfl, by decide, by decide, by decide,
    collect_region_keeps_completed_categories twoCategoryFactory "us-east-1" twoCategoryClient
      ["AWS::EC2::Instance", "AWS::S3::Bucket"] [] "AWS::S3::Bucket"
      (.mk "listing failed") rfl (by decide) (by decide) (by decide)⟩

/-- The `AddResource` loop of the channel drain appends the whole resource
list of a successful region result. -/
theorem foldl_AddResource (rs : List Resource) :
    ∀ inv : Inventory, rs.foldl AddResource inv =
      { inv with Resources := inv.Resources ++ rs } := by
  induction rs with
  | nil => intro inv; simp
  | cons r rest ih =>
    intro inv
    simp [List.foldl_cons, ih, AddResource, List.append_assoc]

/-- Closed form of the channel drain: successful results contribute their
resources in drain order, failed results contribute one `RegionError`
each, in drain order. -/
theorem drainResults_eq :
    ∀ (results : List CollectResult) (inv : Inventory) (errs : List RegionError),
    drainResults results inv errs =
      ({ inv with Resources := inv.Resources ++
          ((results.filter (fun res => res.Err.isNone)).map
            (fun res => res.Resources)).flatten },
       errs ++ results.filterMap
          (fun res => res.Err.map (fun e => RegionError.mk res.Region e))) := by
  intro results
  induction results with
  | nil => intro inv errs; simp [drainResults]
  | cons res rest ih =>
    intro inv errs
    cases hE : res.Err with
    | some e => simp [drainResults, hE, ih, List.append_assoc]
    | none => simp [drainResults, hE, ih, foldl_AddResource, List.append_assoc]

/-- The regions named by the drained error list are exactly the regions
whose outcome carries an error, in order. -/
theorem regionErrors_map_region (f : String → Option Err) :
    ∀ regions : List String,
    ((regions.filterMap (fun r => (f r).map (fun e => RegionError.mk r e))).map
        (fun re => re.Region)) =
      regions.filter (fun r => (f r).isSome) := by
  intro regions
  induction regions with
  | nil => simp
  | cons r rest ih => cases h : f r <;> simp [h, ih]

/-- Closed form of `Collect`: the inventory holds the concatenated
resources of the succeeding regions (in drain order) and the error is the
`CollectErrors` over the failing regions, or nil when none failed. -/
theorem Collect_eq (profile : String)
    (clientFactory : String → Option ConfigClient) (regions : List String) :
    Collect profile clientFactory regions =
      ({ Profile := profile, Regions := regions,
         Resources :=
          ((regions.filter (fun r => ((collectRegion clientFactory r).2).isNone)).map
            (fun r => (collectRegion clientFactory r).1)).flatten },
       if regions.filterMap (fun r =>
            ((collectRegion clientFactory r).2).map (fun e => RegionError.mk r e)) = []
       then none
       else some (CollectErrors.mk (regions.filterMap (fun r =>
            ((collectRegion clientFactory r).2).map (fun e => RegionError.mk r e))))) := by
  simp only [Collect, drainResults_eq, NewInventory]
  simp only [List.filter_map, List.filterMap_map, List.map_map, Function.comp_def]
  by_cases hE : regions.filterMap (fun r =>
      ((collectRegion clientFactory r).2).map (fun e => RegionError.mk r e)) = []
  · simp [hE]
  · have hpos : 0 < (regions.filterMap (fun r =>
        ((collectRegion clientFactory r).2).map (fun e => RegionError.mk r e))).length :=
      List.length_pos.mpr hE
    simp [hE, hpos]

/-- C1 (amended): for pairwise-distinct requested regions, `Collect`
returns the resources of exactly the succeeding regions (none from failed
ones); the error is nil iff no region failed, and otherwise is a
`CollectErrors` whose entries name exactly the failed regions, pairwise
distinct; zero regions give an empty resource list and a nil error. (For a
request list with a repeated region the code emits one entry per failed
task, so entries need not be distinct — see the counterexample.) -/
theorem collect_failure_aggregation
    (profile : String) (clientFactory : String → Option ConfigClient)
    (regions : List String) (hnd : regions.Nodup) :
    ((Collect profile clientFactory regions).1.Resources =
      ((regions.filter (fun r => ((collectRegion clientFactory r).2).isNone)).map
        (fun r => (collectRegion clientFactory r).1)).flatten)
    ∧ ((Collect profile clientFactory regions).2 = none ↔
        regions.filter (fun r => ((collectRegion clientFactory r).2).isSome) = [])
    ∧ (∀ ce, (Collect profile clientFactory regions).2 = some ce →
        ce.Errors.map (fun re => re.Region) =
          regions.filter (fun r => ((collectRegion clientFactory r).2).isSome)
        ∧ (ce.Errors.map (fun re => re.Region)).Nodup)
    ∧ (regions = [] →
        (Collect profile clientFactory regions).1.Resources = []
        ∧ (Collect profile clientFactory regions).2 = none) := by
  have hmap := regionErrors_map_region (fun r => (collectRegion clientFactory r).2) regions
  refine ⟨?_, ?_, ?_, ?_⟩
  · rw [Collect_eq]
  · rw [Collect_eq]
    by_cases hE : regions.filterMap (fun r =>
        ((collectRegion clientFactory r).2).map (fun e => RegionError.mk r e)) = []
    · have hfil : regions.filter (fun r => ((collectRegion clientFactory r).2).isSome) = [] := by
        rw [← hmap, hE]
        rfl
      simp [hE, hfil]
    · have hfil : regions.filter (fun r => ((collectRegion clientFactory r).2).isSome) ≠ [] := by
        intro h
        apply hE
        have hm := hmap
        rw [h] at hm
        exact List.map_eq_nil_iff.mp hm
      simp [hE, hfil]
  · intro ce hce
    rw [Collect_eq] at hce
    by_cases hE : regions.filterMap (fun r =>
        ((collectRegion clientFactory r).2).map (fun e => RegionError.mk r e)) = []
    · simp [hE] at hce
    · simp [hE] at hce
      rw [← hce]
      refine ⟨hmap, ?_⟩
      rw [hmap]
      exact hnd.filter _
  · intro h
    subst h
    rw [Collect_eq]
    simp

/-- C1 counterexample: requesting the same region twice with every task
failing produces two `RegionError` entries naming the same region — with
exactly one distinct failed region the error does not hold one entry per
distinct region, and the named regions are not pairwise distinct. -/
theorem collect_duplicate_regions_not_distinct :
    (Collect "prod" (fun _ => none) ["us-east-1", "us-east-1"]).2 =
      some (CollectErrors.mk
        [RegionError.mk "us-east-1" (Err.mk "nil AWS Config client for region us-east-1"),
         RegionError.mk "us-east-1" (Err.mk "nil AWS Config client for region us-east-1")])
    ∧ ¬ (([RegionError.mk "us-east-1" (Err.mk "nil AWS Config client for region us-east-1"),
           RegionError.mk "us-east-1" (Err.mk "nil AWS Config client for region us-east-1")].map
            (fun re => re.Region)).Nodup) := by
  exact ⟨by decide, by decide⟩

/-- Factory for the C1 witness: one succeeding region, all others fail. -/
def mixedFactory : String → Option ConfigClient :=
  fun r => if r = "us-east-1" then some okClient else some failClient

theorem collect_failure_aggregation_witness :
    (["us-east-1", "us-west-2"] : List String).Nodup
    ∧ (((Collect "test" mixedFactory ["us-east-1", "us-west-2"]).1.Resources =
        ((["us-east-1", "us-west-2"].filter
            (fun r => ((collectRegion mixedFactory r).2).isNone)).map
          (fun r => (collectRegion mixedFactory r).1)).flatten)
      ∧ ((Collect "test" mixedFactory ["us-east-1", "us-west-2"]).2 = none ↔
          ["us-east-1", "us-west-2"].filter
            (fun r => ((collectRegion mixedFactory r).2).isSome) = [])
      ∧ (∀ ce, (Collect "test" mixedFactory ["us-east-1", "us-west-2"]).2 = some ce →
          ce.Errors.map (fun re => re.Region) =
            ["us-east-1", "us-west-2"].filter
              (fun r => ((collectRegion mixedFactory r).2).isSome)
          ∧ (ce.Errors.map (fun re => re.Region)).Nodup)
      ∧ ((["us-east-1", "us-west-2"] : List String) = [] →
          (Collect "test" mixedFactory ["us-east-1", "us-west-2"]).1.Resources = []
          ∧ (Collect "test" mixedFactory ["us-east-1", "us-west-2"]).2 = none)) :=
  ⟨by decide,
    collect_failure_aggregation "test" mixedFactory
      ["us-east-1", "us-west-2"] (by decide)⟩

/-- Every resource built by the batch loop carries the collecting region. -/
theorem batchLoop_region
    (bg : List ResourceKey → Except Err (List BaseConfigurationItem))
    (region : String) :
    ∀ (chunks : List (List ResourceKey)) (acc : List Resource),
    (∀ r ∈ acc, r.Region = region) →
    ∀ rs, batchLoop bg region chunks acc = .ok rs →
    ∀ r ∈ rs, r.Region = region := by
  intro chunks
  induction chunks with
  | nil =>
    intro acc hacc rs h
    simp [batchLoop] at h
    subst h
    exact hacc
  | cons batch rest ih =>
    intro acc hacc rs h
    cases hbg : bg batch with
    | error e => simp [batchLoop, hbg] at h
    | ok items =>
      simp only [batchLoop, hbg] at h
      refine ih _ ?_ rs h
      intro r hr
      rcases List.mem_append.mp hr with h1 | h2
      · exact hacc r h1
      · obtain ⟨item, _, rfl⟩ := List.mem_map.mp h2
        rfl

/-- Every resource returned by `batchGetResources` carries the collecting
region. -/
theorem batchGetResources_region
    (bg : List ResourceKey → Except Err (List BaseConfigurationItem))
    (region : String) (keys : List ResourceKey) (rs : List Resource)
    (h : batchGetResources bg region keys = .ok rs) :
    ∀ r ∈ rs, r.Region = region := by
  refine batchLoop_region bg region (chunks100 keys) [] ?_ rs h
  intro r hr
  simp at hr

/-- Every resource produced by the page loop of `collectResourceType`
(detailed or shallow) carries the collecting region. -/
theorem collectTypeLoop_region
    (bg : List ResourceKey → Except Err (List BaseConfigurationItem))
    (region rt : String) :
    ∀ (pages : List (Except Err ListPage)) (acc : List Resource),
    (∀ r ∈ acc, r.Region = region) →
    ∀ rs, collectTypeLoop bg region rt pages acc = .ok rs →
    ∀ r ∈ rs, r.Region = region := by
  intro pages
  induction pages with
  | nil =>
    intro acc hacc rs h
    simp [collectTypeLoop] at h
    subst h
    exact hacc
  | cons p rest ih =>
    intro acc hacc rs h
    cases p with
    | error e => simp [collectTypeLoop] at h
    | ok page =>
      have hshallow :
          ∀ r ∈ acc ++ page.resourceIdentifiers.map (shallowResource rt region),
            r.Region = region := by
        intro r hr
        rcases List.mem_append.mp hr with h1 | h2
        · exact hacc r h1
        · obtain ⟨ri, _, rfl⟩ := List.mem_map.mp h2
          rfl
      by_cases hk : 0 < page.resourceIdentifiers.length
      · cases hbg : batchGetResources bg region
            (page.resourceIdentifiers.map (fun ri => ResourceKey.mk rt ri.resourceId)) with
        | error e =>
          cases hnx : page.hasNext with
          | true =>
            simp [collectTypeLoop, hk, hbg, hnx] at h
            exact ih _ hshallow rs h
          | false =>
            simp [collectTypeLoop, hk, hbg, hnx] at h
            subst h
            exact hshallow
        | ok detailed =>
          have hdet : ∀ r ∈ acc ++ detailed, r.Region = region := by
            intro r hr
            rcases List.mem_append.mp hr with h1 | h2
            · exact hacc r h1
            · exact batchGetResources_region bg region _ detailed hbg r h2
          cases hnx : page.hasNext with
          | true =>
            simp [collectTypeLoop, hk, hbg, hnx] at h
            exact ih _ hdet rs h
          | false =>
            simp [collectTypeLoop, hk, hbg, hnx] at h
            subst h
            exact hdet
      · cases hnx : page.hasNext with
        | true =>
          simp [collectTypeLoop, hk, hnx] at h
          exact ih _ hacc rs h
        | false =>
          simp [collectTypeLoop, hk, hnx] at h
          subst h
          exact hacc

/-- Every resource accumulated by the category loop of `collectRegion`
carries the collecting region, also on the partial-failure exit. -/
theorem collectRegionTypes_region (client : ConfigClient) (region : String) :
    ∀ (rts : List String) (acc : List Resource),
    (∀ r ∈ acc, r.Region = region) →
    ∀ r ∈ (collectRegionTypes client region rts acc).1, r.Region = region := by
  intro rts
  induction rts with
  | nil =>
    intro acc hacc r hr
    simp [collectRegionTypes] at hr
    exact hacc r hr
  | cons t rest ih =>
    intro acc hacc r hr
    cases h : typeResult client region t with
    | error e =>
      simp only [collectRegionTypes, h] at hr
      exact hacc r hr
    | ok rs =>
      simp only [collectRegionTypes, h] at hr
      refine ih _ ?_ r hr
      intro r2 hr2
      rcases List.mem_append.mp hr2 with h1 | h2
      · exact hacc r2 h1
      · exact collectTypeLoop_region client.batchGet region t
          (client.listPages t) [] (by simp) rs h r2 h2

/-- Every resource returned by `collectRegion` carries the region it was
asked to collect. -/
theorem collectRegion_region (clientFactory : String → Option ConfigClient)
    (region : String) :
    ∀ r ∈ (collectRegion clientFactory region).1, r.Region = region := by
  intro r hr
  cases hf : clientFactory region with
  | none => simp [collectRegion, hf] at hr
  | some client =>
    cases hd : discoverResourceTypes client.countsPages with
    | error e => simp [collectRegion, hf, hd] at hr
    | ok ts =>
      simp only [collectRegion, hf, hd] at hr
      exact collectRegionTypes_region client region ts [] (by simp) r hr

/-- C10: every resource produced by a per-region task is stamped with that
task's region (for detailed records and shallow fallbacks alike), and no
resource of the inventory returned by `Collect` is labeled with a region
outside the requested list. -/
theorem collect_region_field_invariant
    (clientFactory : String → Option ConfigClient) :
    (∀ region r, r ∈ (collectRegion clientFactory region).1 → r.Region = region)
    ∧ ∀ profile (regions : List String) r,
        r ∈ (Collect profile clientFactory regions).1.Resources →
        r.Region ∈ regions := by
  constructor
  · intro region r hr
    exact collectRegion_region clientFactory region r hr
  · intro profile regions r hr
    rw [Collect_eq] at hr
    simp only [List.mem_flatten, List.mem_map, List.mem_filter] at hr
    obtain ⟨l, ⟨s, ⟨hs, _⟩, rfl⟩, hrl⟩ := hr
    rw [collectRegion_region clientFactory s r hrl]
    exact hs

theorem collect_region_field_invariant_witness :
    ({ ResourceType := "AWS::EC2::Instance", ResourceID := "i-12345",
       ResourceName := "instance-1", Region := "us-east-1" } : Resource) ∈
        (collectRegion mixedFactory "us-east-1").1
    ∧ ({ ResourceType := "AWS::EC2::Instance", ResourceID := "i-12345",
         ResourceName := "instance-1", Region := "us-east-1" } : Resource).Region =
        "us-east-1"
    ∧ ({ ResourceType := "AWS::EC2::Instance", ResourceID := "i-12345",
         ResourceName := "instance-1", Region := "us-east-1" } : Resource) ∈
        (Collect "test" mixedFactory ["us-east-1", "us-west-2"]).1.Resources
    ∧ ({ ResourceType := "AWS::EC2::Instance", ResourceID := "i-12345",
         ResourceName := "instance-1", Region := "us-east-1" } : Resource).Region ∈
        ["us-east-1", "us-west-2"] :=
  ⟨by decide,
    (collect_region_field_invariant mixedFactory).1 "us-east-1" _ (by decide),
    by decide,
    (collect_region_field_invariant mixedFactory).2 "test" ["us-east-1", "us-west-2"]
      _ (by decide)⟩
